import Mathlib

/-!
Verification of the function-calling dispatch loop (`src/function_calling.py`)
and the speech REPL voice state (`src/speech.py`).

Shallow embedding of the Python sources. Python ints are modelled as `ℤ`
(arbitrary precision, exact). Python floats are IEEE-754 binary64 doubles:
a `.float` carries the rational value of the double, and every operation
that produces a float applies `roundFloat` — round to nearest, ties to even,
53-bit significand — to the exact result, as the hardware does; the model
keeps the exponent unbounded (no overflow to infinity, no subnormals), which
coincides with binary64 throughout the normal range the program's arithmetic
inhabits. Python exceptions are modelled as the `Except.error` branch of
`Except PyError`, while values the functions *return* (including error
strings such as `"Error: Division by zero"`) are `Except.ok`. The OpenAI
client and `json.loads` are external collaborators: their outcomes (a model
response or a raised transport/decode exception) are inputs to the turn
function.
-/

deriving instance DecidableEq for Except

/-- Python `str.lower()` (ASCII range, which is all the REPL commands use). -/
def pyLower (s : String) : String := ⟨s.data.map Char.toLower⟩

/-- Python `str.strip()`: remove leading and trailing whitespace. -/
def pyStrip (s : String) : String :=
  ⟨((s.data.dropWhile Char.isWhitespace).reverse.dropWhile Char.isWhitespace).reverse⟩

/-- Python `s[n:]`: drop the first `n` characters. -/
def pyDrop (s : String) (n : Nat) : String := ⟨s.data.drop n⟩

/-- Python `str.startswith(p)`. -/
def pyStartsWith (s p : String) : Bool := p.data.isPrefixOf s.data

/-- Fuel-driven binary logarithm on naturals (structural recursion so that it
reduces inside the kernel). -/
def log2Fuel : ℕ → ℕ → ℕ
  | 0, _ => 0
  | fuel + 1, n => if 2 ≤ n then log2Fuel fuel (n / 2) + 1 else 0

/-- Floor of the binary logarithm of a positive natural. -/
def natLog2 (n : ℕ) : ℕ := log2Fuel n n

namespace FunctionCalling

/-- A JSON-like Python value: numbers (`int` / `float`) and strings, the shapes
that reach the arithmetic tools through `json.loads`-decoded arguments. -/
inductive Value where
  | int (n : ℤ)
  | float (q : ℚ)
  | str (s : String)
deriving DecidableEq, Repr

/-- Python exceptions that the embedded code can raise. -/
inductive PyError where
  | keyError (k : String)
  | typeError
  | jsonDecodeError
  | transportError
deriving DecidableEq, Repr

/-- Floor of the binary logarithm of a nonzero rational: estimate from the
logarithms of numerator and denominator, correcting the off-by-one the
division can introduce. -/
def floorLog2 (q : ℚ) : ℤ :=
  let e : ℤ := (natLog2 q.num.natAbs : ℤ) - (natLog2 q.den : ℤ)
  if |q| < (2 : ℚ) ^ e then e - 1 else e

/-- Round a scaled significand to the nearest integer, ties to even — the
IEEE-754 default rounding. -/
def roundMantissa (s : ℚ) : ℤ :=
  if s - (⌊s⌋ : ℚ) < 1 / 2 then ⌊s⌋
  else if (1 : ℚ) / 2 < s - (⌊s⌋ : ℚ) then ⌊s⌋ + 1
  else if ⌊s⌋ % 2 = 0 then ⌊s⌋ else ⌊s⌋ + 1

/-- The value of the IEEE-754 binary64 double nearest to `q` (round to
nearest, ties to even, 53-bit significand). The exponent is unbounded: the
model has no overflow to infinity and no subnormal precision loss, which is
exact throughout the normal double range the program's arithmetic inhabits. -/
def roundFloat (q : ℚ) : ℚ :=
  if q = 0 then 0
  else
    (if q < 0 then -1 else 1) *
      (roundMantissa (|q| * (2 : ℚ) ^ (52 - floorLog2 q)) : ℚ) *
      (2 : ℚ) ^ (floorLog2 q - 52)

/-- Python `float(n)` for an int `n`: the nearest double (rounds when
`|n| > 2^53`). -/
def intToFloat (n : ℤ) : ℚ := roundFloat (n : ℚ)

/-- Python `x == 0` on our values: true for `int 0` and `float 0.0`,
false for strings (Python `"s" == 0` is `False`). -/
def Value.eqZero : Value → Bool
  | .int n => n = 0
  | .float q => q = 0
  | .str _ => false

/-- Source `def add(a, b): return a + b` — Python `+`: exact bignum addition
on two ints; with a float operand, the int is first converted to a double
and the IEEE sum is rounded; string concatenation; otherwise `TypeError`. -/
def add : Value → Value → Except PyError Value
  | .int a, .int b => .ok (.int (a + b))
  | .int a, .float b => .ok (.float (roundFloat (intToFloat a + b)))
  | .float a, .int b => .ok (.float (roundFloat (a + intToFloat b)))
  | .float a, .float b => .ok (.float (roundFloat (a + b)))
  | .str a, .str b => .ok (.str (a ++ b))
  | _, _ => .error .typeError

/-- Source `def subtract(a, b): return a - b` — Python `-`: exact on two
ints, rounded IEEE difference when a float is involved, numeric only. -/
def subtract : Value → Value → Except PyError Value
  | .int a, .int b => .ok (.int (a - b))
  | .int a, .float b => .ok (.float (roundFloat (intToFloat a - b)))
  | .float a, .int b => .ok (.float (roundFloat (a - intToFloat b)))
  | .float a, .float b => .ok (.float (roundFloat (a - b)))
  | _, _ => .error .typeError

/-- Python `s * n` for an int `n`: repetition, empty for `n ≤ 0`. -/
def strRepeat (s : String) (n : ℤ) : String :=
  String.join (List.replicate n.toNat s)

/-- Source `def multiply(a, b): return a * b` — Python `*`: exact on two
ints, rounded IEEE product when a float is involved; `str * int` (either
order) repeats the string; `str * float` is a `TypeError`. -/
def multiply : Value → Value → Except PyError Value
  | .int a, .int b => .ok (.int (a * b))
  | .int a, .float b => .ok (.float (roundFloat (intToFloat a * b)))
  | .float a, .int b => .ok (.float (roundFloat (a * intToFloat b)))
  | .float a, .float b => .ok (.float (roundFloat (a * b)))
  | .str s, .int n => .ok (.str (strRepeat s n))
  | .int n, .str s => .ok (.str (strRepeat s n))
  | _, _ => .error .typeError

/-- Source `def divide(a, b)`: if `b == 0` return the error string, else
`a / b` — Python true division, always a float. Int/int true division is
the correctly rounded double of the exact quotient (CPython computes it
correctly rounded); with a float operand, ints are converted to doubles
first and the IEEE quotient is rounded. -/
def divide (a b : Value) : Except PyError Value :=
  if b.eqZero then .ok (.str "Error: Division by zero")
  else
    match a, b with
    | .int x, .int y => .ok (.float (roundFloat ((x : ℚ) / (y : ℚ))))
    | .int x, .float y => .ok (.float (roundFloat (intToFloat x / y)))
    | .float x, .int y => .ok (.float (roundFloat (x / intToFloat y)))
    | .float x, .float y => .ok (.float (roundFloat (x / y)))
    | _, _ => .error .typeError

/-- The decoded arguments dictionary (`json.loads` result): keys are unique
in a Python dict; lookup is by key. -/
abbrev ArgsMap := List (String × Value)

/-- Python `arguments[k]`: the value at key `k`, or a raised `KeyError`. -/
def getItem (arguments : ArgsMap) (k : String) : Except PyError Value :=
  match List.find? (fun p => p.1 == k) arguments with
  | some p => .ok p.2
  | none => .error (.keyError k)

/-- The call shape shared by the four dispatch branches of `execute_function`:
evaluate `arguments["a"]`, then `arguments["b"]` (each may raise `KeyError`,
propagated left to right as in Python), then apply the operation. -/
def call2 (f : Value → Value → Except PyError Value) (arguments : ArgsMap) :
    Except PyError Value :=
  match getItem arguments "a" with
  | .error e => .error e
  | .ok a =>
    match getItem arguments "b" with
    | .error e => .error e
    | .ok b => f a b

/-- Source `def execute_function(function_name, arguments)`: dispatch on the name;
each branch evaluates `arguments["a"]` then `arguments["b"]` (raising
`KeyError` on a missing key) and applies the operation; an unrecognised name
returns the `"Error: Unknown function …"` string. -/
def execute_function (function_name : String) (arguments : ArgsMap) :
    Except PyError Value :=
  if function_name = "add" then call2 add arguments
  else if function_name = "subtract" then call2 subtract arguments
  else if function_name = "multiply" then call2 multiply arguments
  else if function_name = "divide" then call2 divide arguments
  else .ok (.str ("Error: Unknown function " ++ function_name))

/-- Python `str(result)` applied to the tool's return value before it becomes
the tool-role message content. `str` of an integral float prints a trailing
`.0` as in Python; the printed form of a non-integral double (its shortest
round-tripping decimal), which no claim exercises, is abstracted by the
rational's own printed form. -/
def pyStr : Value → String
  | .int n => toString n
  | .float q => if q.den = 1 then toString q.num ++ ".0" else toString q
  | .str s => s

/-- Message roles of the chat protocol. -/
inductive Role where
  | system
  | user
  | assistant
  | tool
deriving DecidableEq, Repr

/-- One entry of `response_message.tool_calls`. `decoded_arguments` records the
outcome of the external `json.loads(tool_call.function.arguments)` call:
`.ok` the decoded dict, `.error` a raised `json.JSONDecodeError`. -/
structure ToolCall where
  id : String
  function_name : String
  decoded_arguments : Except Unit ArgsMap
deriving DecidableEq, Repr

/-- The provider's `response.choices[0].message`: text content and the
(possibly empty) ordered list of tool calls. -/
structure ResponseMessage where
  content : Option String
  tool_calls : List ToolCall
deriving DecidableEq, Repr

/-- A conversation message as appended to `messages`. -/
structure Message where
  role : Role
  content : Option String
  tool_calls : List ToolCall
  tool_call_id : Option String
deriving DecidableEq, Repr

/-- Append of the user message: `messages.append` with role user. -/
def userMessage (content : String) : Message := ⟨.user, some content, [], none⟩

/-- Append of `response_message`: the assistant message carrying the
raw tool calls, appended verbatim before any execution. -/
def assistantToolMessage (rm : ResponseMessage) : Message :=
  ⟨.assistant, rm.content, rm.tool_calls, none⟩

/-- Append of a tool-result message: role tool, the originating id, the
textual content. -/
def toolMessage (id content : String) : Message := ⟨.tool, some content, [], some id⟩

/-- Append of a plain assistant message: role assistant with text content. -/
def assistantTextMessage (content : Option String) : Message :=
  ⟨.assistant, content, [], none⟩

/-- The two network calls a turn can make, as inputs from the external
provider: the first `client.chat.completions.create` and the follow-up one.
`.error` models a raised transport exception or malformed response. -/
structure Env where
  first_response : Except Unit ResponseMessage
  follow_up_response : Except Unit (Option String)
deriving Repr

/-- Observable outcome of one turn: the final `messages` list, how many
`create` requests were issued, how many `execute_function` invocations ran,
and whether the `except` handler caught an exception (printing the error). -/
structure TurnTrace where
  messages : List Message
  modelRequests : Nat
  toolExecutions : Nat
  errorCaught : Bool
deriving DecidableEq, Repr

/-- The `for tool_call in response_message.tool_calls` loop: decode the
arguments (a raised decode error propagates to the turn's `except`), run
`execute_function` (a raised `KeyError`/`TypeError` likewise propagates),
append one tool-role message per completed call. Returns the messages, the
number of `execute_function` invocations made, and whether an exception
escaped the loop. -/
def processToolCalls (msgs : List Message) (execs : Nat) :
    List ToolCall → List Message × Nat × Bool
  | [] => (msgs, execs, false)
  | tc :: rest =>
    match tc.decoded_arguments with
    | .error _ => (msgs, execs, true)
    | .ok args =>
      match execute_function tc.function_name args with
      | .error _ => (msgs, execs + 1, true)
      | .ok v =>
        processToolCalls (msgs ++ [toolMessage tc.id (pyStr v)]) (execs + 1) rest

/-- Statement vocabulary: a tool call whose arguments decode and whose
execution returns normally (no raised exception). -/
def callSucceeds (tc : ToolCall) : Prop :=
  ∃ args v, tc.decoded_arguments = .ok args ∧
    execute_function tc.function_name args = .ok v

/-- One turn of `main`'s chat loop after a non-empty, non-exit input: append
the user message, then run the `try` block — first model request; if the
response carries tool calls, append the assistant message verbatim, execute
the calls in order, and issue exactly one follow-up request; any raised
exception is caught by the turn-level `except`, which prints and falls
through to the next prompt. -/
def runTurn (messages : List Message) (user_input : String) (env : Env) :
    TurnTrace :=
  let msgs1 := messages ++ [userMessage user_input]
  match env.first_response with
  | .error _ => ⟨msgs1, 1, 0, true⟩
  | .ok rm =>
    if rm.tool_calls = [] then
      ⟨msgs1 ++ [assistantTextMessage rm.content], 1, 0, false⟩
    else
      let msgs2 := msgs1 ++ [assistantToolMessage rm]
      match processToolCalls msgs2 0 rm.tool_calls with
      | (msgs3, n, true) => ⟨msgs3, 1, n, true⟩
      | (msgs3, n, false) =>
        match env.follow_up_response with
        | .error _ => ⟨msgs3, 2, n, true⟩
        | .ok c => ⟨msgs3 ++ [assistantTextMessage c], 2, n, false⟩

/-- The exit commands of the chat loop: "quit", "exit", "bye". -/
def exit_commands : List String := ["quit", "exit", "bye"]

/-- Outcome of one iteration of the `while True` loop: `halt` for `break`,
`next` with the (possibly updated) conversation for every other path. -/
inductive StepOutcome where
  | halt
  | next (messages : List Message)
deriving DecidableEq, Repr

/-- One iteration of the chat loop: strip the input; an exit command breaks;
an empty input continues without touching `messages`; otherwise run the turn. -/
def sessionStep (messages : List Message) (raw_input : String) (env : Env) :
    StepOutcome :=
  let user_input := pyStrip raw_input
  if pyLower user_input ∈ exit_commands then .halt
  else if user_input = "" then .next messages
  else .next (runTurn messages user_input env).messages

/-- The chat loop run over a finite schedule of user inputs, each paired with
the provider's behaviour for that turn. Returns the final conversation. -/
def runSession (messages : List Message) :
    List (String × Env) → List Message
  | [] => messages
  | (raw, env) :: rest =>
    match sessionStep messages raw env with
    | .halt => messages
    | .next ms => runSession ms rest

end FunctionCalling

namespace Speech

/-- The valid voices of the `voice <name>` handler in the speech REPL. -/
def valid_voices : List String := ["alloy", "echo", "fable", "onyx", "nova", "shimmer"]

/-- The speech REPL exit commands: "quit", "exit", "bye", "q". -/
def speech_exit_commands : List String := ["quit", "exit", "bye", "q"]

/-- Initial voice of the speech REPL: `current_voice = "alloy"`. -/
def initial_voice : String := "alloy"

/-- One iteration of the speech REPL restricted to its effect on
`current_voice` (the only loop-carried state the claims are about): strip the
input; empty input continues; an exit command breaks (`none`); the
administrative commands and the generation path leave the voice unchanged;
`voice <name>` assigns `user_input[6:].strip().lower()` when it is a valid
voice. Returns `none` for `break`, `some v` to continue with voice `v`. -/
def speechStep (current_voice : String) (raw_input : String) : Option String :=
  let user_input := pyStrip raw_input
  if user_input = "" then some current_voice
  else if pyLower user_input ∈ speech_exit_commands then none
  else if pyLower user_input = "help" then some current_voice
  else if pyLower user_input = "recent" then some current_voice
  else if pyLower user_input = "clear" then some current_voice
  else if pyLower user_input = "voices" then some current_voice
  else if pyStartsWith (pyLower user_input) "voice " then
    let voice_name := pyLower (pyStrip (pyDrop user_input 6))
    if voice_name ∈ valid_voices then some voice_name else some current_voice
  else some current_voice

/-- The speech REPL over a finite schedule of inputs, returning the final
`current_voice` (an exit command stops the loop). -/
def runSpeechSession (current_voice : String) : List String → String
  | [] => current_voice
  | raw :: rest =>
    match speechStep current_voice raw with
    | none => current_voice
    | some v => runSpeechSession v rest

end Speech

namespace FunctionCalling

lemma execute_divide_pair (va vb : Value) :
    execute_function "divide" [("a", va), ("b", vb)] = divide va vb := rfl

/-- C7: `divide(a, 0)` returns the `"Error: Division by zero"` text as an
ordinary result value (`Except.ok`) for every `a`, whether the zero arrives
as the int `0` or the float `0.0`, and also through `execute_function`;
it never raises. -/
theorem divide_by_zero_defined (a : Value) :
    divide a (.int 0) = .ok (.str "Error: Division by zero") ∧
    divide a (.float 0) = .ok (.str "Error: Division by zero") ∧
    execute_function "divide" [("a", a), ("b", .int 0)] =
      .ok (.str "Error: Division by zero") := by
  have h0 : divide a (.int 0) = .ok (.str "Error: Division by zero") := by
    simp [divide, Value.eqZero]
  have h1 : divide a (.float 0) = .ok (.str "Error: Division by zero") := by
    simp [divide, Value.eqZero]
  exact ⟨h0, h1, by rw [execute_divide_pair, h0]⟩

/-- C6: a tool name outside the registry makes `execute_function` return the
`"Error: Unknown function …"` string as ordinary result content (never a
raised exception), for every arguments mapping; the dispatch loop appends it
as the tool-role message and still issues the follow-up request. -/
theorem execute_unknown_tool_total (function_name : String)
    (h1 : function_name ≠ "add") (h2 : function_name ≠ "subtract")
    (h3 : function_name ≠ "multiply") (h4 : function_name ≠ "divide") :
    (∀ arguments, execute_function function_name arguments =
      .ok (.str ("Error: Unknown function " ++ function_name))) ∧
    (∀ (ms : List Message) (input cid : String) (args : ArgsMap)
        (c fu : Option String),
      runTurn ms input ⟨.ok ⟨c, [⟨cid, function_name, .ok args⟩]⟩, .ok fu⟩ =
        ⟨ms ++ [userMessage input,
                assistantToolMessage ⟨c, [⟨cid, function_name, .ok args⟩]⟩,
                toolMessage cid ("Error: Unknown function " ++ function_name),
                assistantTextMessage fu], 2, 1, false⟩) := by
  have hex : ∀ arguments, execute_function function_name arguments =
      .ok (.str ("Error: Unknown function " ++ function_name)) := by
    intro arguments
    simp [execute_function, h1, h2, h3, h4]
  refine ⟨hex, ?_⟩
  intro ms input cid args c fu
  simp [runTurn, processToolCalls, hex, pyStr]

/-- C6 witness: the theorem at the unregistered name `"power"`. -/
theorem execute_unknown_tool_total_witness :
    execute_function "power" [("a", .int 2), ("b", .int 10)] =
      .ok (.str "Error: Unknown function power") :=
  (execute_unknown_tool_total "power" (by decide) (by decide) (by decide)
    (by decide)).1 [("a", .int 2), ("b", .int 10)]

/-- C5 counterexample: `execute_function` performs no validation — called with
a registered tool name and an arguments mapping missing the required `"a"`,
it raises `KeyError` (the `Except.error` branch, an exception propagating to
the caller) instead of returning an `InvalidArguments` error as result
content. -/
theorem execute_missing_arg_raises :
    execute_function "add" [] = .error (.keyError "a") ∧
    ∀ v : Value, execute_function "add" [] ≠ .ok v := by
  exact ⟨by decide, fun v h => by simp [execute_function, call2, getItem] at h⟩

/-- C5 amended: `execute_function` validates nothing. With a registered name,
a missing `"a"` raises `KeyError "a"`, a present `"a"` but missing `"b"`
raises `KeyError "b"` (Python evaluates `arguments["a"]` first), a
non-numeric argument reaches the operation unchecked (mixed `int`/`str`
raises `TypeError`; two strings are happily concatenated), and inside the
dispatch loop the raised exception is caught by the turn-level handler:
the turn aborts with no tool-role message and no follow-up request. -/
theorem execute_no_validation (function_name : String) (arguments : ArgsMap)
    (hreg : function_name = "add" ∨ function_name = "subtract" ∨
      function_name = "multiply" ∨ function_name = "divide") :
    (List.find? (fun p => p.1 == "a") arguments = none →
      execute_function function_name arguments = .error (.keyError "a")) ∧
    (∀ va, List.find? (fun p => p.1 == "a") arguments = some va →
      List.find? (fun p => p.1 == "b") arguments = none →
      execute_function function_name arguments = .error (.keyError "b")) ∧
    execute_function "add" [("a", .int 1), ("b", .str "x")] =
      .error .typeError ∧
    execute_function "add" [("a", .str "x"), ("b", .str "y")] =
      .ok (.str "xy") ∧
    (∀ (ms : List Message) (input cid : String) (c : Option String)
        (fu : Except Unit (Option String)),
      List.find? (fun p => p.1 == "a") arguments = none →
      runTurn ms input ⟨.ok ⟨c, [⟨cid, function_name, .ok arguments⟩]⟩, fu⟩ =
        ⟨ms ++ [userMessage input,
                assistantToolMessage ⟨c, [⟨cid, function_name, .ok arguments⟩]⟩],
         1, 1, true⟩) := by
  have hka : List.find? (fun p => p.1 == "a") arguments = none →
      execute_function function_name arguments = .error (.keyError "a") := by
    intro hfind
    rcases hreg with h | h | h | h <;> subst h <;>
      simp [execute_function, call2, getItem, hfind]
  refine ⟨hka, ?_, by decide, by decide, ?_⟩
  · intro va hva hfb
    rcases hreg with h | h | h | h <;> subst h <;>
      simp [execute_function, call2, getItem, hva, hfb]
  · intro ms input cid c fu hfind
    have hexec := hka hfind
    simp [runTurn, processToolCalls, hexec]

/-- C5 amended witness: the theorem at `divide` with `{"b": 0}` —
the missing `"a"` raises `KeyError "a"`. -/
theorem execute_no_validation_witness :
    execute_function "divide" [("b", .int 0)] = .error (.keyError "a") :=
  (execute_no_validation "divide" [("b", .int 0)]
    (Or.inr (Or.inr (Or.inr rfl)))).1 (by decide)

lemma processToolCalls_nil (msgs : List Message) (execs : Nat) :
    processToolCalls msgs execs [] = (msgs, execs, false) := rfl

lemma processToolCalls_ok (tcs : List ToolCall) :
    ∀ (msgs : List Message) (execs : Nat) (msgs' : List Message) (execs' : Nat),
      processToolCalls msgs execs tcs = (msgs', execs', false) →
      ∃ tms : List Message,
        msgs' = msgs ++ tms ∧
        execs' = execs + tcs.length ∧
        tms.map (fun m => m.tool_call_id) = tcs.map (fun tc => some tc.id) ∧
        ∀ m ∈ tms, m.role = Role.tool := by
  induction tcs with
  | nil =>
    intro msgs execs msgs' execs' h
    simp only [processToolCalls, Prod.mk.injEq] at h
    exact ⟨[], by simp [h.1], by simp [h.2.1], by simp, by simp⟩
  | cons tc rest ih =>
    intro msgs execs msgs' execs' h
    simp only [processToolCalls] at h
    split at h
    · simp at h
    · split at h
      · simp at h
      · rename_i v heq2
        obtain ⟨tms, h1, h2, h3, h4⟩ := ih _ _ _ _ h
        refine ⟨toolMessage tc.id (pyStr v) :: tms, ?_, ?_, ?_, ?_⟩
        · simp [h1]
        · simp only [h2, List.length_cons]; omega
        · simp [h3, toolMessage]
        · intro m hm
          rcases List.mem_cons.mp hm with rfl | hm
          · rfl
          · exact h4 m hm

lemma processToolCalls_append_ok (pre : List ToolCall) :
    ∀ (msgs : List Message) (execs : Nat) (l : List ToolCall),
      (∀ tc ∈ pre, callSucceeds tc) →
      ∃ tms : List Message,
        processToolCalls msgs execs (pre ++ l) =
          processToolCalls (msgs ++ tms) (execs + pre.length) l ∧
        tms.map (fun m => m.tool_call_id) = pre.map (fun tc => some tc.id) ∧
        ∀ m ∈ tms, m.role = Role.tool := by
  induction pre with
  | nil => intro msgs execs l _; exact ⟨[], by simp, by simp, by simp⟩
  | cons tc rest ih =>
    intro msgs execs l hall
    obtain ⟨args, v, hd, he⟩ := hall tc (List.mem_cons_self tc rest)
    obtain ⟨tms, h1, h2, h3⟩ :=
      ih (msgs ++ [toolMessage tc.id (pyStr v)]) (execs + 1) l
        (fun t ht => hall t (List.mem_cons_of_mem _ ht))
    refine ⟨toolMessage tc.id (pyStr v) :: tms, ?_, ?_, ?_⟩
    · have harith : execs + 1 + rest.length = execs + (rest.length + 1) := by omega
      calc processToolCalls msgs execs ((tc :: rest) ++ l)
          = processToolCalls (msgs ++ [toolMessage tc.id (pyStr v)]) (execs + 1)
              (rest ++ l) := by
            simp only [List.cons_append, processToolCalls, hd, he, List.append_eq]
        _ = processToolCalls ((msgs ++ [toolMessage tc.id (pyStr v)]) ++ tms)
              (execs + 1 + rest.length) l := h1
        _ = processToolCalls (msgs ++ toolMessage tc.id (pyStr v) :: tms)
              (execs + (tc :: rest).length) l := by
            rw [List.append_assoc, List.singleton_append, List.length_cons, harith]
    · simp [h2, toolMessage]
    · intro m hm
      rcases List.mem_cons.mp hm with rfl | hm
      · rfl
      · exact h3 m hm

lemma processToolCalls_prefix (tcs : List ToolCall) :
    ∀ (msgs : List Message) (execs : Nat) (msgs' : List Message) (execs' : Nat)
      (flag : Bool),
      processToolCalls msgs execs tcs = (msgs', execs', flag) →
      ∃ (tms : List Message) (k : Nat),
        msgs' = msgs ++ tms ∧
        k ≤ tcs.length ∧
        tms.map (fun m => m.tool_call_id) =
          (tcs.take k).map (fun tc => some tc.id) ∧
        (∀ m ∈ tms, m.role = Role.tool) ∧
        (flag = false → k = tcs.length) := by
  induction tcs with
  | nil =>
    intro msgs execs msgs' execs' flag h
    simp only [processToolCalls, Prod.mk.injEq] at h
    obtain ⟨e1, e2, e3⟩ := h
    exact ⟨[], 0, by simp [e1], by simp, by simp, by simp, fun _ => by simp⟩
  | cons tc rest ih =>
    intro msgs execs msgs' execs' flag h
    simp only [processToolCalls] at h
    split at h
    · simp only [Prod.mk.injEq] at h
      obtain ⟨e1, e2, e3⟩ := h
      refine ⟨[], 0, by simp [e1], by simp, by simp, by simp, ?_⟩
      intro hf
      rw [← e3] at hf
      exact absurd hf (by decide)
    · split at h
      · simp only [Prod.mk.injEq] at h
        obtain ⟨e1, e2, e3⟩ := h
        refine ⟨[], 0, by simp [e1], by simp, by simp, by simp, ?_⟩
        intro hf
        rw [← e3] at hf
        exact absurd hf (by decide)
      · rename_i v heq2
        obtain ⟨tms, k, q1, q2, q3, q4, q5⟩ := ih _ _ _ _ _ h
        refine ⟨toolMessage tc.id (pyStr v) :: tms, k + 1, ?_, ?_, ?_, ?_, ?_⟩
        · simp [q1]
        · simp only [List.length_cons]
          omega
        · simp [List.take_succ_cons, q3, toolMessage]
        · intro m hm
          rcases List.mem_cons.mp hm with rfl | hm
          · rfl
          · exact q4 m hm
        · intro hf
          rw [q5 hf]
          simp

lemma runTurn_toolcalls (ms : List Message) (input : String) (env : Env)
    (rm : ResponseMessage) (h1 : env.first_response = .ok rm)
    (h2 : rm.tool_calls ≠ []) :
    runTurn ms input env =
      match processToolCalls (ms ++ [userMessage input, assistantToolMessage rm])
          0 rm.tool_calls with
      | (m3, n, true) => ⟨m3, 1, n, true⟩
      | (m3, n, false) =>
        match env.follow_up_response with
        | .error _ => ⟨m3, 2, n, true⟩
        | .ok c => ⟨m3 ++ [assistantTextMessage c], 2, n, false⟩ := by
  simp only [runTurn, h1]
  rw [if_neg h2]
  simp [List.append_assoc]

/-- C1 counterexample: a turn whose response carries two tool calls but whose
second call's arguments fail to decode appends exactly one tool-role message
(for the first call only), so the number of appended tool-role messages does
not match the number of the assistant message's tool_calls — falsifying the
exact count-and-order clause of the claim as stated. -/
theorem tool_pairing_count_mismatch :
    ((runTurn [] "two differences"
        ⟨.ok ⟨none, [⟨"id_a", "subtract", .ok [("a", .int 9), ("b", .int 4)]⟩,
                     ⟨"id_b", "subtract", .error ()⟩]⟩,
         .ok (some "done")⟩).messages.filter
        (fun m => m.role == Role.tool)).map (fun m => m.tool_call_id) =
      [some "id_a"] ∧
    [(⟨"id_a", "subtract", .ok [("a", .int 9), ("b", .int 4)]⟩ : ToolCall),
      ⟨"id_b", "subtract", .error ()⟩].map (fun tc => some tc.id) =
      [some "id_a", some "id_b"] ∧
    ([some "id_a"] : List (Option String)) ≠ [some "id_a", some "id_b"] := by
  refine ⟨by decide, by decide, by decide⟩

/-- C1 (amended): every tool-role message the dispatch loop appends carries
the `tool_call_id` of its originating request, and the appended tool-role
messages correspond, in order, to a prefix of the immediately preceding
assistant message's tool_calls — the loop never constructs a tool-role
message without a corresponding preceding request, and nothing else appended
has the tool role. In a turn that completes without a raised exception the
prefix is the whole list, so the count and order match exactly; in an
exception-aborted turn only the calls that completed before the failure
have tool messages. -/
theorem dispatch_tool_pairing (ms : List Message) (input : String) (env : Env)
    (rm : ResponseMessage) (h1 : env.first_response = .ok rm)
    (h2 : rm.tool_calls ≠ []) :
    (∃ (tms tail : List Message) (k : Nat),
      (runTurn ms input env).messages =
        ms ++ [userMessage input, assistantToolMessage rm] ++ tms ++ tail ∧
      k ≤ rm.tool_calls.length ∧
      tms.map (fun m => m.tool_call_id) =
        (rm.tool_calls.take k).map (fun tc => some tc.id) ∧
      (∀ m ∈ tms, m.role = Role.tool) ∧
      (∀ m ∈ tail, m.role ≠ Role.tool)) ∧
    ((runTurn ms input env).errorCaught = false →
      ∃ (tms : List Message) (final : Option String),
        (runTurn ms input env).messages =
          ms ++ [userMessage input, assistantToolMessage rm] ++ tms ++
            [assistantTextMessage final] ∧
        tms.map (fun m => m.tool_call_id) =
          rm.tool_calls.map (fun tc => some tc.id) ∧
        tms.length = rm.tool_calls.length ∧
        ∀ m ∈ tms, m.role = Role.tool) := by
  have hrt := runTurn_toolcalls ms input env rm h1 h2
  rcases hp : processToolCalls (ms ++ [userMessage input, assistantToolMessage rm])
      0 rm.tool_calls with ⟨m3, n, flag⟩
  rw [hp] at hrt
  obtain ⟨ptms, k, q1, q2, q3, q4, q5⟩ :=
    processToolCalls_prefix rm.tool_calls _ _ _ _ _ hp
  cases flag with
  | true =>
    constructor
    · refine ⟨ptms, [], k, ?_, q2, q3, q4, by simp⟩
      rw [hrt]
      simp [q1, List.append_assoc]
    · intro h3
      rw [hrt] at h3
      simp at h3
  | false =>
    obtain ⟨tms, e1, e2, e3, e4⟩ := processToolCalls_ok rm.tool_calls _ _ _ _ hp
    cases hf : env.follow_up_response with
    | error er =>
      rw [hf] at hrt
      constructor
      · refine ⟨ptms, [], k, ?_, q2, q3, q4, by simp⟩
        rw [hrt]
        simp [q1, List.append_assoc]
      · intro h3
        rw [hrt] at h3
        simp at h3
    | ok c =>
      rw [hf] at hrt
      constructor
      · refine ⟨tms, [assistantTextMessage c], rm.tool_calls.length, ?_,
          le_rfl, ?_, e4, ?_⟩
        · rw [hrt]
          simp [e1, List.append_assoc]
        · rw [List.take_length]
          exact e3
        · intro m hm
          simp only [List.mem_singleton] at hm
          subst hm
          simp [assistantTextMessage]
      · intro h3
        refine ⟨tms, c, ?_, e3, ?_, e4⟩
        · rw [hrt]
          simp [e1, List.append_assoc]
        · have := congrArg List.length e3
          simpa using this

/-- C1 amended witness: the theorem at a completed one-call turn
(`add(15, 7)`, id `call_1`), exercising the exact-pairing clause. -/
theorem dispatch_tool_pairing_witness :
    ∃ (tms : List Message) (final : Option String),
      (runTurn [] "what is 15 + 7?"
        ⟨.ok ⟨none, [⟨"call_1", "add", .ok [("a", .int 15), ("b", .int 7)]⟩]⟩,
         .ok (some "15 + 7 = 22")⟩).messages =
        [] ++ [userMessage "what is 15 + 7?",
               assistantToolMessage
                 ⟨none, [⟨"call_1", "add", .ok [("a", .int 15), ("b", .int 7)]⟩]⟩] ++
          tms ++ [assistantTextMessage final] ∧
      tms.map (fun m => m.tool_call_id) =
        [ToolCall.mk "call_1" "add" (.ok [("a", .int 15), ("b", .int 7)])].map
          (fun tc => some tc.id) ∧
      tms.length =
        [ToolCall.mk "call_1" "add" (.ok [("a", .int 15), ("b", .int 7)])].length ∧
      ∀ m ∈ tms, m.role = Role.tool :=
  (dispatch_tool_pairing [] "what is 15 + 7?"
    ⟨.ok ⟨none, [⟨"call_1", "add", .ok [("a", .int 15), ("b", .int 7)]⟩]⟩,
     .ok (some "15 + 7 = 22")⟩
    ⟨none, [⟨"call_1", "add", .ok [("a", .int 15), ("b", .int 7)]⟩]⟩
    rfl (by decide)).2 (by decide)

/-- C2 counterexample: a turn whose response carries N = 2 tool calls but
whose second call's arguments fail to decode performs exactly 1 tool
execution and issues no follow-up request (1 model request in total) —
falsifying the unconditional "exactly N executions and exactly one
follow-up request, for every N" clause at N = 2. -/
theorem request_count_mismatch_on_abort :
    (runTurn [] "two products"
        ⟨.ok ⟨none, [⟨"call_p", "multiply", .ok [("a", .int 3), ("b", .int 5)]⟩,
                     ⟨"call_q", "multiply", .error ()⟩]⟩,
         .ok (some "done")⟩).toolExecutions = 1 ∧
    (runTurn [] "two products"
        ⟨.ok ⟨none, [⟨"call_p", "multiply", .ok [("a", .int 3), ("b", .int 5)]⟩,
                     ⟨"call_q", "multiply", .error ()⟩]⟩,
         .ok (some "done")⟩).modelRequests = 1 ∧
    [(⟨"call_p", "multiply", .ok [("a", .int 3), ("b", .int 5)]⟩ : ToolCall),
      ⟨"call_q", "multiply", .error ()⟩].length = 2 := by
  refine ⟨by decide, by decide, by decide⟩

/-- C2 (amended): a response with zero tool calls leads to exactly one model
request and zero tool executions — no follow-up — unconditionally. A
response with N ≥ 1 tool calls leads to exactly N executions and exactly
one follow-up request (two requests in total) when the turn completes
without a raised exception; when a call's arguments fail to decode, only
the calls before it are executed and no follow-up request is issued. -/
theorem dispatch_request_counts (ms : List Message) (input : String) (env : Env)
    (rm : ResponseMessage) (h1 : env.first_response = .ok rm) :
    (rm.tool_calls = [] →
      runTurn ms input env =
        ⟨ms ++ [userMessage input, assistantTextMessage rm.content], 1, 0, false⟩) ∧
    (rm.tool_calls ≠ [] → (runTurn ms input env).errorCaught = false →
      (runTurn ms input env).toolExecutions = rm.tool_calls.length ∧
      (runTurn ms input env).modelRequests = 2) ∧
    (∀ (pre : List ToolCall) (bad : ToolCall) (rest : List ToolCall),
      rm.tool_calls = pre ++ bad :: rest →
      bad.decoded_arguments = .error () →
      (∀ tc ∈ pre, callSucceeds tc) →
      (runTurn ms input env).toolExecutions = pre.length ∧
      (runTurn ms input env).modelRequests = 1) := by
  refine ⟨?_, ?_, ?_⟩
  · intro hz
    simp [runTurn, h1, hz]
  · intro hnz h3
    have hrt := runTurn_toolcalls ms input env rm h1 hnz
    rcases hp : processToolCalls (ms ++ [userMessage input, assistantToolMessage rm])
        0 rm.tool_calls with ⟨m3, n, flag⟩
    rw [hp] at hrt
    cases flag with
    | true => rw [hrt] at h3; simp at h3
    | false =>
      obtain ⟨tms, e1, e2, e3, e4⟩ := processToolCalls_ok rm.tool_calls _ _ _ _ hp
      cases hf : env.follow_up_response with
      | error e => rw [hf] at hrt; rw [hrt] at h3; simp at h3
      | ok c =>
        rw [hf] at hrt
        rw [hrt]
        constructor
        · simpa using e2
        · rfl
  · intro pre bad rest hsplit hbad hpre
    have hnz : rm.tool_calls ≠ [] := by rw [hsplit]; simp
    have hrt := runTurn_toolcalls ms input env rm h1 hnz
    obtain ⟨tms, hp1, hp2, hp3⟩ :=
      processToolCalls_append_ok pre
        (ms ++ [userMessage input, assistantToolMessage rm]) 0 (bad :: rest) hpre
    have hstep : processToolCalls
        ((ms ++ [userMessage input, assistantToolMessage rm]) ++ tms)
        (0 + pre.length) (bad :: rest) =
        (((ms ++ [userMessage input, assistantToolMessage rm]) ++ tms),
         0 + pre.length, true) := by
      simp [processToolCalls, hbad]
    rw [hsplit, hp1, hstep] at hrt
    rw [hrt]
    exact ⟨by simp, rfl⟩

/-- C2 amended witness: the theorem's zero-tool-call branch at a concrete
turn. -/
theorem dispatch_request_counts_witness :
    runTurn [] "hello" ⟨.ok ⟨some "hi there", []⟩, .error ()⟩ =
      ⟨[] ++ [userMessage "hello", assistantTextMessage (some "hi there")],
       1, 0, false⟩ :=
  (dispatch_request_counts [] "hello" ⟨.ok ⟨some "hi there", []⟩, .error ()⟩
    ⟨some "hi there", []⟩ rfl).1 rfl

/-- C3 counterexample: a turn whose single tool call has undecodable
arguments. The decode failure is *not* converted into a tool-result message:
the trace shows the turn aborted (`errorCaught = true`), no tool-role message
was appended at all, no execution ran and no follow-up request was made —
contradicting the claim that the failure is fed back as the tool-role
message's content and the turn continues. -/
theorem decode_failure_not_fed_back :
    runTurn [] "compute something"
        ⟨.ok ⟨none, [⟨"call_1", "divide", .error ()⟩]⟩, .ok (some "done")⟩ =
      ⟨[userMessage "compute something",
        assistantToolMessage ⟨none, [⟨"call_1", "divide", .error ()⟩]⟩],
       1, 0, true⟩ ∧
    ∀ m ∈ (runTurn [] "compute something"
        ⟨.ok ⟨none, [⟨"call_1", "divide", .error ()⟩]⟩,
         .ok (some "done")⟩).messages,
      m.role ≠ Role.tool := by
  constructor
  · decide
  · decide

/-- C3 amended: a `raw_arguments` decode failure raises an exception that
propagates to the turn-level handler: the turn aborts with `errorCaught`,
the conversation keeps the user message, the assistant message and the tool
messages of the calls that already succeeded, gains no tool-role message for
the failing call or any later call, and no follow-up request is issued; the
session itself continues (the decode failure is never fed back as a
`MalformedArguments` tool result). -/
theorem decode_failure_aborts_turn (ms : List Message) (input : String)
    (env : Env) (rm : ResponseMessage) (pre : List ToolCall) (bad : ToolCall)
    (rest : List ToolCall)
    (h1 : env.first_response = .ok rm)
    (h2 : rm.tool_calls = pre ++ bad :: rest)
    (hbad : bad.decoded_arguments = .error ())
    (hpre : ∀ tc ∈ pre, callSucceeds tc) :
    ∃ tms : List Message,
      runTurn ms input env =
        ⟨ms ++ [userMessage input, assistantToolMessage rm] ++ tms,
         1, pre.length, true⟩ ∧
      tms.map (fun m => m.tool_call_id) = pre.map (fun tc => some tc.id) ∧
      ∀ m ∈ tms, m.role = Role.tool := by
  have hnz : rm.tool_calls ≠ [] := by rw [h2]; simp
  have hrt := runTurn_toolcalls ms input env rm h1 hnz
  obtain ⟨tms, hp1, hp2, hp3⟩ :=
    processToolCalls_append_ok pre
      (ms ++ [userMessage input, assistantToolMessage rm]) 0 (bad :: rest) hpre
  have hstep : processToolCalls
      ((ms ++ [userMessage input, assistantToolMessage rm]) ++ tms)
      (0 + pre.length) (bad :: rest) =
      (((ms ++ [userMessage input, assistantToolMessage rm]) ++ tms),
       0 + pre.length, true) := by
    simp [processToolCalls, hbad]
  rw [h2, hp1, hstep] at hrt
  refine ⟨tms, ?_, hp2, hp3⟩
  rw [hrt]
  simp [List.append_assoc]

/-- C3 amended witness: the theorem at a turn with one successful `add` call
followed by a call whose arguments fail to decode. -/
theorem decode_failure_aborts_turn_witness :
    ∃ tms : List Message,
      runTurn [] "two sums"
        ⟨.ok ⟨none, [⟨"call_1", "add", .ok [("a", .int 1), ("b", .int 2)]⟩,
                     ⟨"call_2", "add", .error ()⟩]⟩, .ok (some "ok")⟩ =
        ⟨[] ++ [userMessage "two sums",
                assistantToolMessage
                  ⟨none, [⟨"call_1", "add", .ok [("a", .int 1), ("b", .int 2)]⟩,
                          ⟨"call_2", "add", .error ()⟩]⟩] ++ tms,
         1, [ToolCall.mk "call_1" "add" (.ok [("a", .int 1), ("b", .int 2)])].length,
         true⟩ ∧
      tms.map (fun m => m.tool_call_id) =
        [ToolCall.mk "call_1" "add" (.ok [("a", .int 1), ("b", .int 2)])].map
          (fun tc => some tc.id) ∧
      ∀ m ∈ tms, m.role = Role.tool :=
  decode_failure_aborts_turn [] "two sums"
    ⟨.ok ⟨none, [⟨"call_1", "add", .ok [("a", .int 1), ("b", .int 2)]⟩,
                 ⟨"call_2", "add", .error ()⟩]⟩, .ok (some "ok")⟩
    ⟨none, [⟨"call_1", "add", .ok [("a", .int 1), ("b", .int 2)]⟩,
            ⟨"call_2", "add", .error ()⟩]⟩
    [⟨"call_1", "add", .ok [("a", .int 1), ("b", .int 2)]⟩]
    ⟨"call_2", "add", .error ()⟩ [] rfl rfl rfl
    (by
      intro tc htc
      have : tc = ⟨"call_1", "add", .ok [("a", .int 1), ("b", .int 2)]⟩ := by
        simpa using htc
      subst this
      exact ⟨[("a", .int 1), ("b", .int 2)], .int 3, rfl, by decide⟩)

/-- C4: a transport-level failure of a model request aborts only the current
turn. If the first request raises, the turn ends with the error caught and
the conversation extended by the already-appended user message only — no
assistant message from the failed request, partial or otherwise; the session
loop then continues with the next input. If the follow-up request raises
after a successful tool phase, the conversation keeps the complete user,
assistant and tool messages and gains no assistant summary; the error is
again caught at turn level. -/
theorem transport_failure_turn_only (ms : List Message) (input : String)
    (env : Env) (hfail : env.first_response = .error ()) :
    runTurn ms input env = ⟨ms ++ [userMessage input], 1, 0, true⟩ ∧
    (∀ raw, pyStrip raw = input → pyLower input ∉ exit_commands → input ≠ "" →
      sessionStep ms raw env = .next (ms ++ [userMessage input]) ∧
      ∀ rest, runSession ms ((raw, env) :: rest) =
        runSession (ms ++ [userMessage input]) rest) ∧
    (∀ (env2 : Env) (rm : ResponseMessage),
      env2.first_response = .ok rm → rm.tool_calls ≠ [] →
      env2.follow_up_response = .error () →
      (∀ tc ∈ rm.tool_calls, callSucceeds tc) →
      ∃ tms : List Message,
        runTurn ms input env2 =
          ⟨ms ++ [userMessage input, assistantToolMessage rm] ++ tms,
           2, rm.tool_calls.length, true⟩ ∧
        ∀ m ∈ tms, m.role = Role.tool) := by
  have hturn : runTurn ms input env = ⟨ms ++ [userMessage input], 1, 0, true⟩ := by
    simp [runTurn, hfail]
  refine ⟨hturn, ?_, ?_⟩
  · intro raw hraw hnx hne
    have hstep : sessionStep ms raw env = .next (ms ++ [userMessage input]) := by
      simp only [sessionStep, hraw]
      rw [if_neg hnx, if_neg hne, hturn]
    refine ⟨hstep, ?_⟩
    intro rest
    simp only [runSession]
    rw [hstep]
  · intro env2 rm h1 h2 hf hall
    have hrt := runTurn_toolcalls ms input env2 rm h1 h2
    obtain ⟨tms, hp1, hp2, hp3⟩ :=
      processToolCalls_append_ok rm.tool_calls
        (ms ++ [userMessage input, assistantToolMessage rm]) 0 [] hall
    rw [List.append_nil] at hp1
    rw [hp1, processToolCalls_nil, hf] at hrt
    refine ⟨tms, ?_, hp3⟩
    rw [hrt]
    simp [List.append_assoc]

/-- C4 witness: the theorem at a turn whose first request raises. -/
theorem transport_failure_turn_only_witness :
    runTurn [] "hello" ⟨.error (), .error ()⟩ =
      ⟨[] ++ [userMessage "hello"], 1, 0, true⟩ :=
  (transport_failure_turn_only [] "hello" ⟨.error (), .error ()⟩ rfl).1

/-- C9: in the chat REPL loop, the input `"quit"` breaks out of the loop
before anything is appended to the conversation, for every provider
behaviour and every rest of the input schedule; an empty input leaves the
conversation untouched and merely moves on to the next prompt. -/
theorem repl_quit_empty_frame (ms : List Message) (env : Env)
    (rest : List (String × Env)) :
    sessionStep ms "quit" env = .halt ∧
    runSession ms (("quit", env) :: rest) = ms ∧
    sessionStep ms "" env = .next ms ∧
    runSession ms (("", env) :: rest) = runSession ms rest := by
  have h1 : sessionStep ms "quit" env = .halt := by
    have hc : pyLower (pyStrip "quit") ∈ exit_commands := by decide
    simp [sessionStep, hc]
  have h2 : sessionStep ms "" env = .next ms := by
    have hc1 : pyLower (pyStrip "") ∉ exit_commands := by decide
    have hc2 : pyStrip "" = "" := by decide
    simp only [sessionStep]
    rw [if_neg hc1, if_pos hc2]
  refine ⟨h1, ?_, h2, ?_⟩
  · simp only [runSession]; rw [h1]
  · simp only [runSession]; rw [h2]

end FunctionCalling

namespace Speech

lemma startsVoice_not_commands (u : String)
    (h : pyStartsWith (pyLower u) "voice " = true) :
    u ≠ "" ∧ pyLower u ∉ speech_exit_commands ∧ pyLower u ≠ "help" ∧
    pyLower u ≠ "recent" ∧ pyLower u ≠ "clear" ∧ pyLower u ≠ "voices" := by
  refine ⟨?_, ?_, ?_, ?_, ?_, ?_⟩
  · rintro rfl; exact absurd h (by decide)
  · intro hm
    have hd : pyLower u = "quit" ∨ pyLower u = "exit" ∨ pyLower u = "bye" ∨
        pyLower u = "q" := by simpa [speech_exit_commands] using hm
    rcases hd with h' | h' | h' | h' <;> rw [h'] at h <;> exact absurd h (by decide)
  · intro h'; rw [h'] at h; exact absurd h (by decide)
  · intro h'; rw [h'] at h; exact absurd h (by decide)
  · intro h'; rw [h'] at h; exact absurd h (by decide)
  · intro h'; rw [h'] at h; exact absurd h (by decide)

lemma speechStep_voice_cmd (v raw : String)
    (h : pyStartsWith (pyLower (pyStrip raw)) "voice " = true) :
    speechStep v raw =
      if pyLower (pyStrip (pyDrop (pyStrip raw) 6)) ∈ valid_voices
      then some (pyLower (pyStrip (pyDrop (pyStrip raw) 6)))
      else some v := by
  obtain ⟨h0, h1, h2, h3, h4, h5⟩ := startsVoice_not_commands (pyStrip raw) h
  simp only [speechStep]
  rw [if_neg h0, if_neg h1, if_neg h2, if_neg h3, if_neg h4, if_neg h5, if_pos h]

lemma speechStep_other (v raw : String)
    (h : pyStartsWith (pyLower (pyStrip raw)) "voice " = false) :
    speechStep v raw = none ∨ speechStep v raw = some v := by
  simp only [speechStep]
  split_ifs <;> simp_all

lemma speechStep_preserves (v raw : String) (hv : v ∈ valid_voices) :
    ∀ v2, speechStep v raw = some v2 → v2 ∈ valid_voices := by
  intro v2 h
  cases hsw : pyStartsWith (pyLower (pyStrip raw)) "voice " with
  | false =>
    rcases speechStep_other v raw hsw with h' | h' <;> rw [h'] at h
    · exact absurd h (by simp)
    · obtain rfl : v = v2 := by simpa using h
      exact hv
  | true =>
    rw [speechStep_voice_cmd v raw hsw] at h
    split_ifs at h with hm
    · obtain rfl : pyLower (pyStrip (pyDrop (pyStrip raw) 6)) = v2 := by
        simpa using h
      exact hm
    · obtain rfl : v = v2 := by simpa using h
      exact hv

lemma runSpeechSession_mem (inputs : List String) :
    ∀ v, v ∈ valid_voices → runSpeechSession v inputs ∈ valid_voices := by
  induction inputs with
  | nil => intro v hv; simpa [runSpeechSession] using hv
  | cons raw rest ih =>
    intro v hv
    simp only [runSpeechSession]
    cases hs : speechStep v raw with
    | none => simpa using hv
    | some v2 => exact ih v2 (speechStep_preserves v raw hv v2 hs)

/-- C10: the speech REPL's current voice starts as `"alloy"` and is one of
the six valid voices after any sequence of inputs; a `voice <name>` command
reassigns it exactly when the stripped, lowercased name is valid, and every
other input (commands, generation prompts, exit) leaves it unchanged. -/
theorem speech_voice_invariant :
    (initial_voice = "alloy" ∧ initial_voice ∈ valid_voices) ∧
    (∀ inputs, runSpeechSession initial_voice inputs ∈ valid_voices) ∧
    (∀ v raw, pyStartsWith (pyLower (pyStrip raw)) "voice " = true →
      pyLower (pyStrip (pyDrop (pyStrip raw) 6)) ∈ valid_voices →
      speechStep v raw = some (pyLower (pyStrip (pyDrop (pyStrip raw) 6)))) ∧
    (∀ v raw, pyStartsWith (pyLower (pyStrip raw)) "voice " = true →
      pyLower (pyStrip (pyDrop (pyStrip raw) 6)) ∉ valid_voices →
      speechStep v raw = some v) ∧
    (∀ v raw, pyStartsWith (pyLower (pyStrip raw)) "voice " = false →
      speechStep v raw = none ∨ speechStep v raw = some v) := by
  refine ⟨⟨rfl, by decide⟩,
    fun inputs => runSpeechSession_mem inputs initial_voice (by decide),
    ?_, ?_, speechStep_other⟩
  · intro v raw hsw hm
    rw [speechStep_voice_cmd v raw hsw, if_pos hm]
  · intro v raw hsw hm
    rw [speechStep_voice_cmd v raw hsw, if_neg hm]

/-- C10 witness: the theorem's `voice <name>` clause at
`current_voice = "alloy"` and input `" VOICE Echo "`. -/
theorem speech_voice_invariant_witness :
    speechStep "alloy" " VOICE Echo " = some "echo" := by
  have h := speech_voice_invariant.2.2.1 "alloy" " VOICE Echo "
    (by decide) (by decide)
  rw [h]
  decide

end Speech

